import Mathlib

/-!
# Verification of the qqc postfix calculator (src/main.rs)

Shallow embedding of the parse-then-evaluate pipeline of `src/main.rs`.

Conventions of the embedding:
* Rust `f64` numbers are modelled as exact rationals (`ℚ`).  Every claim
  under verification only exercises arithmetic on small integer values,
  where IEEE-754 double arithmetic is exact and agrees with `ℚ`; the
  divergences (division by zero, NaN-producing `powf`, rounding) are not
  touched by any claim and are noted at the individual operator functions.
* `HashMap<String, f64>` is modelled as an association list
  `List (String × ℚ)` where insertion prepends and lookup returns the
  most recently inserted binding, which is extensionally the map's
  insert/get behaviour.
* Fallible Rust functions returning `Result` are modelled with `Except`.
  The `.unwrap()` on the result of `Iterator::reduce` inside
  `Evaluator::operate` can panic; that panic is modelled explicitly by the
  `fault` constructor of the outcome types.
* `Iterator::filter_map` followed by `reduce` consumes the whole operand
  list before the unwrap happens, and the `get_var_error_name` local is
  overwritten on every unresolvable variable, so it finally holds the
  *last* missing name; `resolveOperands` reproduces exactly that.
-/

namespace Qqc

/-- `Value` from src/main.rs: `Nothing`, `Operand(f64)`, `Variable(String)`. -/
inductive Value where
  | Nothing : Value
  | Operand : ℚ → Value
  | Variable : String → Value
  deriving DecidableEq, Repr

/-- `Command` from src/main.rs. -/
inductive Command where
  | SetVar : String → Command
  | Add : List Value → Command
  | Subtract : List Value → Command
  | Multiply : List Value → Command
  | Divide : List Value → Command
  | Power : List Value → Command
  | Modulo : List Value → Command
  deriving DecidableEq, Repr

/-- `EngineError` from src/main.rs. -/
inductive EngineError where
  | TooManyVariableNames : EngineError
  | MissingVariableName : EngineError
  | MissingOperands : EngineError
  | UnknownCommand : String → EngineError
  | MissingVariable : String → EngineError
  | EvaluatorAnswerShouldNotBeValueVariable : EngineError
  | NoValuesInQueue : EngineError
  deriving DecidableEq, Repr

/-- Decidable equality of `Except` results, used to evaluate parse
outcomes on concrete scripts. -/
instance {ε α : Type} [DecidableEq ε] [DecidableEq α] : DecidableEq (Except ε α) :=
  fun a b =>
    match a, b with
    | Except.error e, Except.error e' =>
      if h : e = e' then Decidable.isTrue (by rw [h])
      else Decidable.isFalse (fun hh => h (Except.error.inj hh))
    | Except.error _, Except.ok _ => Decidable.isFalse (fun hh => Except.noConfusion hh)
    | Except.ok _, Except.error _ => Decidable.isFalse (fun hh => Except.noConfusion hh)
    | Except.ok x, Except.ok y =>
      if h : x = y then Decidable.isTrue (by rw [h])
      else Decidable.isFalse (fun hh => h (Except.ok.inj hh))

/-- `struct Evaluator` from src/main.rs: the variable table, the history of
answers (`answers`, write-only), and the accumulator (`answer`). -/
structure Evaluator where
  vars : List (String × ℚ)
  answers : List Value
  answer : Value
  deriving DecidableEq, Repr

/-- `Evaluator::new()`: empty table, empty history, accumulator `Nothing`. -/
def Evaluator.new : Evaluator :=
  { vars := [], answers := [], answer := Value.Nothing }

/-- `HashMap::get` on the association-list model: most recent binding wins. -/
def lookupVar (vars : List (String × ℚ)) (name : String) : Option ℚ :=
  match vars with
  | [] => none
  | (k, v) :: rest => if k = name then some v else lookupVar rest name

/-- Outcome of `Evaluator::operate` / `Evaluator::evaluate`: a returned
`Value`, a returned `EngineError`, or the `unwrap` panic (`fault`). -/
inductive EvalOutcome where
  | ok : Value → EvalOutcome
  | err : EngineError → EvalOutcome
  | fault : EvalOutcome
  deriving DecidableEq, Repr

/-- Outcome of one iteration of the `for command in commands` loop of
`Evaluator::evaluate`: the updated evaluator, an early-returned error, or
the propagated `unwrap` panic. -/
inductive StepOutcome where
  | next : Evaluator → StepOutcome
  | err : EngineError → StepOutcome
  | fault : StepOutcome
  deriving DecidableEq, Repr

/-- The `filter_map` body of `Evaluator::operate`, run over the whole
working list: drops `Nothing`, keeps `Operand` numbers, resolves
`Variable` names against the table; an unresolvable name contributes
nothing to the numeric list and overwrites the recorded missing name, so
the second component is the *last* missing name (`none` if all resolve). -/
def resolveOperands (vars : List (String × ℚ)) : List Value → List ℚ × Option String
  | [] => ([], none)
  | v :: rest =>
    let r := resolveOperands vars rest
    match v with
    | Value.Nothing => r
    | Value.Operand num => (num :: r.1, r.2)
    | Value.Variable name =>
      match lookupVar vars name with
      | some val => (val :: r.1, r.2)
      | none => (r.1, some (r.2.getD name))

/-- `Iterator::reduce`: `none` on the empty list, otherwise the strict
left fold seeded with the first element. -/
def reduceList (op : ℚ → ℚ → ℚ) : List ℚ → Option ℚ
  | [] => none
  | x :: rest => some (rest.foldl op x)

/-- `Evaluator::operate`: prepend the accumulator to the operand list,
resolve, reduce.  The Rust code computes `Ok(Operand(....unwrap()))`
*before* testing `get_var_error_flag`, so an empty resolved list is the
`unwrap` panic (`fault`) even when a variable was also missing; only when
the reduce succeeds does a recorded missing name produce
`MissingVariable`. -/
def operate (ev : Evaluator) (operands : List Value) (op : ℚ → ℚ → ℚ) : EvalOutcome :=
  let worklist := ev.answer :: operands
  let r := resolveOperands ev.vars worklist
  match reduceList op r.1 with
  | none => EvalOutcome.fault
  | some result =>
    match r.2 with
    | some name => EvalOutcome.err (EngineError.MissingVariable name)
    | none => EvalOutcome.ok (Value.Operand result)

/-- `fn add` inside `Evaluator::evaluate`. -/
def add (acc x : ℚ) : ℚ := acc + x

/-- `fn subtract` inside `Evaluator::evaluate`. -/
def subtract (acc x : ℚ) : ℚ := acc - x

/-- `fn multiply` inside `Evaluator::evaluate`. -/
def multiply (acc x : ℚ) : ℚ := acc * x

/-- `fn divide` inside `Evaluator::evaluate`.  `ℚ` division yields `0` at
a zero divisor where IEEE-754 yields an infinity or NaN; no claim under
verification evaluates a division by zero. -/
def divide (acc x : ℚ) : ℚ := acc / x

/-- Truncation of a rational toward zero, as an integer (the rounding used
by Rust's `%` on `f64`). -/
def qtrunc (q : ℚ) : ℤ := Int.tdiv q.num (Int.ofNat q.den)

/-- `fn power` inside `Evaluator::evaluate` (`f64::powf`).  Faithful for
integer exponents, where `powf` on exactly-represented values is exact;
fractional exponents produce irrational or NaN results that have no `ℚ`
counterpart and are used by no claim, so they are mapped to `0`. -/
def power (acc x : ℚ) : ℚ := if x.den = 1 then acc ^ x.num else 0

/-- `fn modulo` inside `Evaluator::evaluate` (Rust `%` on `f64`, i.e.
`fmod`): remainder with the sign of the dividend.  At a zero divisor
IEEE-754 yields NaN while this model yields `acc`; no claim evaluates a
modulo by zero. -/
def modulo (acc x : ℚ) : ℚ := acc - x * ((qtrunc (acc / x) : ℤ) : ℚ)

/-- Shared body of the six arithmetic arms of the `match` in
`Evaluator::evaluate`: `self.answer = self.operate(operands.to_vec(), f)?;
self.answers.push(self.answer.clone());`. -/
def arithStep (ev : Evaluator) (ops : List Value) (op : ℚ → ℚ → ℚ) : StepOutcome :=
  match operate ev ops op with
  | EvalOutcome.ok v =>
    StepOutcome.next { ev with answer := v, answers := ev.answers ++ [v] }
  | EvalOutcome.err e => StepOutcome.err e
  | EvalOutcome.fault => StepOutcome.fault

/-- One iteration of the command loop of `Evaluator::evaluate`.  The
`SetVar` arm matches the accumulator: `Nothing` returns `NoValuesInQueue`,
`Operand(num)` inserts `num` under the name and resets the accumulator to
`Nothing` (then pushes it onto `answers`), `Variable` returns
`EvaluatorAnswerShouldNotBeValueVariable`. -/
def evalStep (ev : Evaluator) : Command → StepOutcome
  | Command.SetVar name =>
    match ev.answer with
    | Value.Nothing => StepOutcome.err EngineError.NoValuesInQueue
    | Value.Operand num =>
      StepOutcome.next
        { vars := (name, num) :: ev.vars
          answers := ev.answers ++ [Value.Nothing]
          answer := Value.Nothing }
    | Value.Variable _ =>
      StepOutcome.err EngineError.EvaluatorAnswerShouldNotBeValueVariable
  | Command.Add ops => arithStep ev ops add
  | Command.Subtract ops => arithStep ev ops subtract
  | Command.Multiply ops => arithStep ev ops multiply
  | Command.Divide ops => arithStep ev ops divide
  | Command.Power ops => arithStep ev ops power
  | Command.Modulo ops => arithStep ev ops modulo

/-- `Evaluator::evaluate`: run the loop over the command list; when it
finishes, return `Ok(self.answer)`. -/
def evaluate : Evaluator → List Command → EvalOutcome
  | ev, [] => EvalOutcome.ok ev.answer
  | ev, c :: rest =>
    match evalStep ev c with
    | StepOutcome.next ev' => evaluate ev' rest
    | StepOutcome.err e => EvalOutcome.err e
    | StepOutcome.fault => EvalOutcome.fault

/-- The operand list and fold function of an arithmetic command (`none`
for `SetVar`); bundles the six identical evaluate arms for statements
quantified over "every arithmetic command". -/
def arithParts : Command → Option (List Value × (ℚ → ℚ → ℚ))
  | Command.SetVar _ => none
  | Command.Add ops => some (ops, add)
  | Command.Subtract ops => some (ops, subtract)
  | Command.Multiply ops => some (ops, multiply)
  | Command.Divide ops => some (ops, divide)
  | Command.Power ops => some (ops, power)
  | Command.Modulo ops => some (ops, modulo)

/-- Splits a character list at every separator character (the separators
are consumed); adjacent separators produce empty groups, like Rust's
`str::split`. -/
def splitChars (p : Char → Bool) : List Char → List (List Char)
  | [] => [[]]
  | c :: rest =>
    match splitChars p rest with
    | [] => [[]]
    | h :: t => if p c then [] :: h :: t else (c :: h) :: t

/-- Drops one trailing carriage return, as Rust's `str::lines` does on
each line. -/
def stripCR (cs : List Char) : List Char :=
  match cs.getLast? with
  | some c => if c = '\r' then cs.dropLast else cs
  | none => cs

/-- Rust's `str::lines` (used by `parse`): split at every newline, the
final line ending being optional, and strip one trailing `\r` per line. -/
def rustLines (s : String) : List String :=
  let parts := splitChars (fun c => c = '\n') s.data
  let parts2 :=
    match parts.getLast? with
    | some [] => parts.dropLast
    | _ => parts
  parts2.map (fun cs => String.mk (stripCR cs))

/-- Rust's `str::split_whitespace` (used by `parse` on each line): split
at whitespace runs, yielding only the non-empty tokens. -/
def splitWhitespace (s : String) : List String :=
  ((splitChars Char.isWhitespace s.data).filter (fun cs => !cs.isEmpty)).map String.mk

/-- Rust's `str::starts_with("#")` on a token: its first character is
`#`. -/
def startsWithPound (s : String) : Bool :=
  match s.data with
  | c :: _ => c = '#'
  | [] => false

/-- Numeric value of a digit character. -/
def digitVal (c : Char) : ℕ := c.toNat - 48

/-- Value of a digit string, most significant digit first. -/
def digitsVal (l : List Char) : ℕ :=
  l.foldl (fun acc c => 10 * acc + digitVal c) 0

/-- Unsigned part of the `f64` literal grammar accepted by Rust's
`str::parse::<f64>` (a standard-library function, outside this
repository): digits with an optional `.` and optional fraction digits, or
`.` followed by digits.  Exponent forms and `inf`/`nan` spellings, which
no script in the claims uses (and which mostly have no exact `ℚ` value),
are outside this model and parse as `none`. -/
def parseUnsignedDec (l : List Char) : Option ℚ :=
  let intPart := l.takeWhile Char.isDigit
  let rest := l.dropWhile Char.isDigit
  match rest with
  | [] => if intPart.isEmpty then none else some ((digitsVal intPart : ℚ))
  | '.' :: frac =>
    if frac.all Char.isDigit && (!intPart.isEmpty || !frac.isEmpty) then
      some ((digitsVal intPart : ℚ) + (digitsVal frac : ℚ) / (10 : ℚ) ^ frac.length)
    else none
  | _ => none

/-- Rust's `str::parse::<f64>` on a token, over the decimal grammar of
`parseUnsignedDec` with an optional leading sign. -/
def parseF64 (s : String) : Option ℚ :=
  match s.data with
  | '-' :: rest => (parseUnsignedDec rest).map (fun q => -q)
  | '+' :: rest => parseUnsignedDec rest
  | l => parseUnsignedDec l

/-- `parse_float` from src/main.rs: a token that lexes as a float becomes
`Operand`, any other token becomes `Variable` (the Rust function wraps
both in `Ok` and never fails). -/
def parse_float (input : String) : Value :=
  match parseF64 input with
  | some x => Value.Operand x
  | none => Value.Variable input

/-- `parse_operands` from src/main.rs: `parse_float` on every operand
token (the per-token `unwrap` never panics since `parse_float` always
returns `Ok`). -/
def parse_operands (operand_strings : List String) : List Value :=
  operand_strings.map parse_float

/-- `parse_var_name` from src/main.rs (always `Ok`). -/
def parse_var_name (var_name : String) : String := var_name

/-- `parse_set_var` from src/main.rs: input is the whole token list
including the leading `=`. -/
def parse_set_var (input : List String) : Except EngineError Command :=
  if input.length ≤ 1 then Except.error EngineError.MissingVariableName
  else if 3 ≤ input.length then Except.error EngineError.TooManyVariableNames
  else Except.ok (Command.SetVar (parse_var_name (input.getD 1 "")))

/-- `parse_add` from src/main.rs: the operands are all tokens but the
last (the guarded `split_last().unwrap()` cannot panic). -/
def parse_add (input : List String) : Except EngineError Command :=
  if input.length ≤ 1 then Except.error EngineError.MissingOperands
  else Except.ok (Command.Add (parse_operands input.dropLast))

/-- `parse_subtract` from src/main.rs. -/
def parse_subtract (input : List String) : Except EngineError Command :=
  if input.length ≤ 1 then Except.error EngineError.MissingOperands
  else Except.ok (Command.Subtract (parse_operands input.dropLast))

/-- `parse_multiply` from src/main.rs. -/
def parse_multiply (input : List String) : Except EngineError Command :=
  if input.length ≤ 1 then Except.error EngineError.MissingOperands
  else Except.ok (Command.Multiply (parse_operands input.dropLast))

/-- `parse_divide` from src/main.rs. -/
def parse_divide (input : List String) : Except EngineError Command :=
  if input.length ≤ 1 then Except.error EngineError.MissingOperands
  else Except.ok (Command.Divide (parse_operands input.dropLast))

/-- `parse_power` from src/main.rs. -/
def parse_power (input : List String) : Except EngineError Command :=
  if input.length ≤ 1 then Except.error EngineError.MissingOperands
  else Except.ok (Command.Power (parse_operands input.dropLast))

/-- `parse_modulo` from src/main.rs. -/
def parse_modulo (input : List String) : Except EngineError Command :=
  if input.length ≤ 1 then Except.error EngineError.MissingOperands
  else Except.ok (Command.Modulo (parse_operands input.dropLast))

/-- The `match command.last()` block of `parse` in src/main.rs: route on
the trailing selector token through the alias chains, falling through to
`UnknownCommand`. -/
def parseSelector (last : String) (tokens : List String) :
    Except EngineError (Option Command) :=
  if last = "+" ∨ last = "plus" ∨ last = "add" then
    (parse_add tokens).map some
  else if last = "-" ∨ last = "minus" ∨ last = "subtract" then
    (parse_subtract tokens).map some
  else if last = "x" ∨ last = "*" ∨ last = "times" ∨ last = "multiply" then
    (parse_multiply tokens).map some
  else if last = "/" ∨ last = "div" ∨ last = "divide" then
    (parse_divide tokens).map some
  else if last = "**" ∨ last = "^" ∨ last = "power" then
    (parse_power tokens).map some
  else if last = "%" ∨ last = "mod" ∨ last = "modulus" ∨ last = "modulo" then
    (parse_modulo tokens).map some
  else Except.error (EngineError.UnknownCommand last)

/-- One iteration of the line loop of `parse` in src/main.rs, on the
token list of the line: a line with no tokens contributes nothing, a
`#`-leading first token skips the line, a `=` first token goes to
`parse_set_var`, anything else routes on the last token. -/
def parseLine (tokens : List String) : Except EngineError (Option Command) :=
  match tokens.head? with
  | none => Except.ok none
  | some first =>
    if startsWithPound first then Except.ok none
    else if first = "=" then (parse_set_var tokens).map some
    else
      match tokens.getLast? with
      | none => Except.ok none
      | some last => parseSelector last tokens

/-- The line loop of `parse` in src/main.rs, accumulating `output`; the
`?` on each line's parse aborts the whole loop with the error. -/
def parseGo : List String → List Command → Except EngineError (List Command)
  | [], output => Except.ok output
  | line :: rest, output =>
    match parseLine (splitWhitespace line) with
    | Except.error e => Except.error e
    | Except.ok none => parseGo rest output
    | Except.ok (some c) => parseGo rest (output ++ [c])

/-- `parse` from src/main.rs. -/
def parse (input : String) : Except EngineError (List Command) :=
  parseGo (rustLines input) []

/-- The composition performed by `main` for one script: parse, then
evaluate from a fresh evaluator; a parse error and an evaluation error
propagate identically (both via `?`). -/
def run (s : String) : EvalOutcome :=
  match parse s with
  | Except.error e => EvalOutcome.err e
  | Except.ok cmds => evaluate Evaluator.new cmds

/-- The accumulator holds an unresolved `Variable`. -/
def Value.isVar : Value → Bool
  | Value.Variable _ => true
  | _ => false

/-- An arithmetic command whose operand list contains at least one numeric
literal (`SetVar` trivially qualifies): under this condition the working
list always resolves at least one number, so the reduce is non-empty. -/
def commandHasLiteral : Command → Prop
  | Command.SetVar _ => True
  | Command.Add ops => ∃ q : ℚ, Value.Operand q ∈ ops
  | Command.Subtract ops => ∃ q : ℚ, Value.Operand q ∈ ops
  | Command.Multiply ops => ∃ q : ℚ, Value.Operand q ∈ ops
  | Command.Divide ops => ∃ q : ℚ, Value.Operand q ∈ ops
  | Command.Power ops => ∃ q : ℚ, Value.Operand q ∈ ops
  | Command.Modulo ops => ∃ q : ℚ, Value.Operand q ∈ ops

/-- A line that `parse` skips without producing a command: no tokens, or
a first token starting with `#`. -/
def blankOrComment (line : String) : Bool :=
  match splitWhitespace line with
  | [] => true
  | first :: _ => startsWithPound first

/-- A token equal to one of the twenty operator selector aliases of
`parse`. -/
def isSelectorToken (t : String) : Bool :=
  t == "+" || t == "plus" || t == "add" ||
  t == "-" || t == "minus" || t == "subtract" ||
  t == "x" || t == "*" || t == "times" || t == "multiply" ||
  t == "/" || t == "div" || t == "divide" ||
  t == "**" || t == "^" || t == "power" ||
  t == "%" || t == "mod" || t == "modulus" || t == "modulo"

/-! ## Helper lemmas -/

/-- `operate` only ever returns an `Operand` value on success. -/
theorem operate_ok_operand (ev : Evaluator) (ops : List Value) (op : ℚ → ℚ → ℚ)
    (v : Value) (h : operate ev ops op = EvalOutcome.ok v) :
    ∃ r : ℚ, v = Value.Operand r := by
  simp only [operate] at h
  cases hred : reduceList op (resolveOperands ev.vars (ev.answer :: ops)).1 with
  | none => rw [hred] at h; cases h
  | some result =>
    rw [hred] at h
    cases hmiss : (resolveOperands ev.vars (ev.answer :: ops)).2 with
    | none => rw [hmiss] at h; exact ⟨result, (EvalOutcome.ok.inj h).symm⟩
    | some name => rw [hmiss] at h; cases h

/-- `operate` only ever returns the `MissingVariable` error. -/
theorem operate_err_missing (ev : Evaluator) (ops : List Value) (op : ℚ → ℚ → ℚ)
    (e : EngineError) (h : operate ev ops op = EvalOutcome.err e) :
    ∃ name, e = EngineError.MissingVariable name := by
  simp only [operate] at h
  cases hred : reduceList op (resolveOperands ev.vars (ev.answer :: ops)).1 with
  | none => rw [hred] at h; cases h
  | some result =>
    rw [hred] at h
    cases hmiss : (resolveOperands ev.vars (ev.answer :: ops)).2 with
    | none => rw [hmiss] at h; cases h
    | some name => rw [hmiss] at h; exact ⟨name, (EvalOutcome.err.inj h).symm⟩

/-- A literal operand always survives the `filter_map`, so the resolved
numeric list is non-empty. -/
theorem resolve_fst_ne_nil (vars : List (String × ℚ)) (ops : List Value) (q : ℚ)
    (hq : Value.Operand q ∈ ops) : (resolveOperands vars ops).1 ≠ [] := by
  induction ops with
  | nil => cases hq
  | cons v rest ih =>
    rcases List.mem_cons.mp hq with h | h
    · rw [← h]; simp [resolveOperands]
    · have hrest := ih h
      cases v with
      | Nothing => simpa [resolveOperands] using hrest
      | Operand n => simp [resolveOperands]
      | Variable name =>
        cases hlv : lookupVar vars name with
        | some val => simp [resolveOperands, hlv]
        | none => simpa [resolveOperands, hlv] using hrest

/-- The missing name recorded by the `filter_map` of `operate` is indeed
absent from the variable table. -/
theorem resolve_missing_unbound (vars : List (String × ℚ)) (ops : List Value)
    (nums : List ℚ) (name : String)
    (h : resolveOperands vars ops = (nums, some name)) :
    lookupVar vars name = none := by
  induction ops generalizing nums name with
  | nil => simp [resolveOperands] at h
  | cons v rest ih =>
    cases hr : resolveOperands vars rest with
    | mk nums' miss =>
      cases v with
      | Nothing =>
        simp only [resolveOperands, hr] at h
        exact ih nums' name (hr.trans (by rw [(Prod.mk.inj h).2]))
      | Operand n =>
        simp only [resolveOperands, hr] at h
        exact ih nums' name (hr.trans (by rw [(Prod.mk.inj h).2]))
      | Variable vname =>
        cases hlv : lookupVar vars vname with
        | some val =>
          simp only [resolveOperands, hr, hlv] at h
          exact ih nums' name (hr.trans (by rw [(Prod.mk.inj h).2]))
        | none =>
          simp only [resolveOperands, hr, hlv] at h
          have hname : name = miss.getD vname := (Option.some.inj (Prod.mk.inj h).2).symm
          cases miss with
          | some m =>
            rw [hname]
            exact ih nums' m hr
          | none =>
            rw [hname]
            exact hlv

/-- With a literal among the operands, `operate` cannot reach the
`unwrap` panic. -/
theorem operate_ne_fault (ev : Evaluator) (ops : List Value) (op : ℚ → ℚ → ℚ)
    (q : ℚ) (hq : Value.Operand q ∈ ops) :
    operate ev ops op ≠ EvalOutcome.fault := by
  have h1 : Value.Operand q ∈ ev.answer :: ops := List.mem_cons_of_mem _ hq
  have h2 := resolve_fst_ne_nil ev.vars (ev.answer :: ops) q h1
  simp only [operate]
  cases hns : (resolveOperands ev.vars (ev.answer :: ops)).1 with
  | nil => exact absurd hns h2
  | cons a l =>
    simp only [reduceList]
    cases (resolveOperands ev.vars (ev.answer :: ops)).2 <;> simp

/-- With a literal among the operands, the arithmetic step cannot reach
the `unwrap` panic. -/
theorem arithStep_ne_fault (ev : Evaluator) (ops : List Value) (op : ℚ → ℚ → ℚ)
    (q : ℚ) (hq : Value.Operand q ∈ ops) :
    arithStep ev ops op ≠ StepOutcome.fault := by
  have hop := operate_ne_fault ev ops op q hq
  unfold arithStep
  cases h : operate ev ops op <;> simp_all

/-- A command satisfying `commandHasLiteral` cannot make one loop
iteration of `evaluate` reach the `unwrap` panic. -/
theorem evalStep_ne_fault (ev : Evaluator) (c : Command) (hc : commandHasLiteral c) :
    evalStep ev c ≠ StepOutcome.fault := by
  cases c with
  | SetVar name =>
    simp only [evalStep]
    cases ev.answer <;> simp
  | Add ops =>
    obtain ⟨q, hq⟩ := hc
    exact arithStep_ne_fault ev ops add q hq
  | Subtract ops =>
    obtain ⟨q, hq⟩ := hc
    exact arithStep_ne_fault ev ops subtract q hq
  | Multiply ops =>
    obtain ⟨q, hq⟩ := hc
    exact arithStep_ne_fault ev ops multiply q hq
  | Divide ops =>
    obtain ⟨q, hq⟩ := hc
    exact arithStep_ne_fault ev ops divide q hq
  | Power ops =>
    obtain ⟨q, hq⟩ := hc
    exact arithStep_ne_fault ev ops power q hq
  | Modulo ops =>
    obtain ⟨q, hq⟩ := hc
    exact arithStep_ne_fault ev ops modulo q hq

/-- A successful arithmetic step leaves a non-`Variable` accumulator. -/
theorem arithStep_next_not_var (ev ev' : Evaluator) (ops : List Value)
    (op : ℚ → ℚ → ℚ) (h : arithStep ev ops op = StepOutcome.next ev') :
    ev'.answer.isVar = false := by
  unfold arithStep at h
  cases ho : operate ev ops op with
  | ok v =>
    rw [ho] at h
    obtain ⟨r, hr⟩ := operate_ok_operand ev ops op v ho
    have := StepOutcome.next.inj h
    rw [← this]
    simp [hr, Value.isVar]
  | err e => rw [ho] at h; cases h
  | fault => rw [ho] at h; cases h

/-- Any successful loop iteration leaves a non-`Variable` accumulator. -/
theorem evalStep_not_var (ev ev' : Evaluator) (c : Command)
    (h : evalStep ev c = StepOutcome.next ev') : ev'.answer.isVar = false := by
  cases c with
  | SetVar name =>
    simp only [evalStep] at h
    cases hans : ev.answer with
    | Nothing => rw [hans] at h; cases h
    | Operand num =>
      rw [hans] at h
      have := StepOutcome.next.inj h
      rw [← this]
      simp [Value.isVar]
    | Variable s => rw [hans] at h; cases h
  | Add ops => exact arithStep_next_not_var ev ev' ops add h
  | Subtract ops => exact arithStep_next_not_var ev ev' ops subtract h
  | Multiply ops => exact arithStep_next_not_var ev ev' ops multiply h
  | Divide ops => exact arithStep_next_not_var ev ev' ops divide h
  | Power ops => exact arithStep_next_not_var ev ev' ops power h
  | Modulo ops => exact arithStep_next_not_var ev ev' ops modulo h

/-- With a non-`Variable` accumulator, a loop iteration never returns the
internal-invariant error. -/
theorem evalStep_err_not_invariant (ev : Evaluator) (c : Command) (e : EngineError)
    (hgood : ev.answer.isVar = false) (hs : evalStep ev c = StepOutcome.err e) :
    e ≠ EngineError.EvaluatorAnswerShouldNotBeValueVariable := by
  cases c with
  | SetVar name =>
    simp only [evalStep] at hs
    cases hans : ev.answer with
    | Nothing =>
      rw [hans] at hs
      rw [← StepOutcome.err.inj hs]
      simp
    | Operand num => rw [hans] at hs; cases hs
    | Variable s => rw [hans] at hgood; simp [Value.isVar] at hgood
  | Add ops =>
    simp only [evalStep] at hs
    unfold arithStep at hs
    cases ho : operate ev ops add with
    | ok v => rw [ho] at hs; cases hs
    | err e' =>
      rw [ho] at hs
      obtain ⟨name, hn⟩ := operate_err_missing ev ops add e' ho
      rw [← StepOutcome.err.inj hs, hn]
      simp
    | fault => rw [ho] at hs; cases hs
  | Subtract ops =>
    simp only [evalStep] at hs
    unfold arithStep at hs
    cases ho : operate ev ops subtract with
    | ok v => rw [ho] at hs; cases hs
    | err e' =>
      rw [ho] at hs
      obtain ⟨name, hn⟩ := operate_err_missing ev ops subtract e' ho
      rw [← StepOutcome.err.inj hs, hn]
      simp
    | fault => rw [ho] at hs; cases hs
  | Multiply ops =>
    simp only [evalStep] at hs
    unfold arithStep at hs
    cases ho : operate ev ops multiply with
    | ok v => rw [ho] at hs; cases hs
    | err e' =>
      rw [ho] at hs
      obtain ⟨name, hn⟩ := operate_err_missing ev ops multiply e' ho
      rw [← StepOutcome.err.inj hs, hn]
      simp
    | fault => rw [ho] at hs; cases hs
  | Divide ops =>
    simp only [evalStep] at hs
    unfold arithStep at hs
    cases ho : operate ev ops divide with
    | ok v => rw [ho] at hs; cases hs
    | err e' =>
      rw [ho] at hs
      obtain ⟨name, hn⟩ := operate_err_missing ev ops divide e' ho
      rw [← StepOutcome.err.inj hs, hn]
      simp
    | fault => rw [ho] at hs; cases hs
  | Power ops =>
    simp only [evalStep] at hs
    unfold arithStep at hs
    cases ho : operate ev ops power with
    | ok v => rw [ho] at hs; cases hs
    | err e' =>
      rw [ho] at hs
      obtain ⟨name, hn⟩ := operate_err_missing ev ops power e' ho
      rw [← StepOutcome.err.inj hs, hn]
      simp
    | fault => rw [ho] at hs; cases hs
  | Modulo ops =>
    simp only [evalStep] at hs
    unfold arithStep at hs
    cases ho : operate ev ops modulo with
    | ok v => rw [ho] at hs; cases hs
    | err e' =>
      rw [ho] at hs
      obtain ⟨name, hn⟩ := operate_err_missing ev ops modulo e' ho
      rw [← StepOutcome.err.inj hs, hn]
      simp
    | fault => rw [ho] at hs; cases hs

/-- Starting from a non-`Variable` accumulator, `evaluate` never returns
the internal-invariant error. -/
theorem evaluate_no_invariant_error (cmds : List Command) (ev : Evaluator)
    (hgood : ev.answer.isVar = false) :
    evaluate ev cmds ≠ EvalOutcome.err EngineError.EvaluatorAnswerShouldNotBeValueVariable := by
  induction cmds generalizing ev with
  | nil => simp [evaluate]
  | cons c rest ih =>
    cases hs : evalStep ev c with
    | next ev' => simpa [evaluate, hs] using ih ev' (evalStep_not_var ev ev' c hs)
    | err e =>
      have := evalStep_err_not_invariant ev c e hgood hs
      simpa [evaluate, hs] using this
    | fault => simp [evaluate, hs]

/-- A successful `SetVar` step resets the accumulator to `Nothing`. -/
theorem evalStep_setvar_next (ev ev' : Evaluator) (name : String)
    (h : evalStep ev (Command.SetVar name) = StepOutcome.next ev') :
    ev'.answer = Value.Nothing := by
  simp only [evalStep] at h
  cases hans : ev.answer with
  | Nothing => rw [hans] at h; cases h
  | Operand num =>
    rw [hans] at h
    rw [← StepOutcome.next.inj h]
  | Variable s => rw [hans] at h; cases h

/-- Lines that are blank or comments are skipped by the parser loop. -/
theorem parseGo_skips (lines : List String) (acc : List Command)
    (h : ∀ line ∈ lines, blankOrComment line = true) :
    parseGo lines acc = Except.ok acc := by
  induction lines with
  | nil => rfl
  | cons line rest ih =>
    have h1 := h line (List.mem_cons_self _ _)
    have h2 : ∀ l ∈ rest, blankOrComment l = true :=
      fun l hl => h l (List.mem_cons_of_mem _ hl)
    have hline : parseLine (splitWhitespace line) = Except.ok none := by
      unfold blankOrComment at h1
      cases hsw : splitWhitespace line with
      | nil => simp [parseLine, hsw]
      | cons first rest' =>
        rw [hsw] at h1
        simp at h1
        simp [parseLine, hsw, h1]
    simp [parseGo, hline, ih h2]

/-- A trailing token that matches no selector alias falls through to
`UnknownCommand`. -/
theorem parseSelector_unknown (t : String) (tokens : List String)
    (h : isSelectorToken t = false) :
    parseSelector t tokens = Except.error (EngineError.UnknownCommand t) := by
  unfold parseSelector
  split_ifs with h1 h2 h3 h4 h5 h6
  · rcases h1 with rfl | rfl | rfl <;> exact absurd h (by decide)
  · rcases h2 with rfl | rfl | rfl <;> exact absurd h (by decide)
  · rcases h3 with rfl | rfl | rfl | rfl <;> exact absurd h (by decide)
  · rcases h4 with rfl | rfl | rfl <;> exact absurd h (by decide)
  · rcases h5 with rfl | rfl | rfl <;> exact absurd h (by decide)
  · rcases h6 with rfl | rfl | rfl | rfl <;> exact absurd h (by decide)
  · rfl

/-- Appending a non-comment, non-assignment selector token to an operand
token list routes `parseLine` to the selector dispatch, provided the
first token of the line is itself no comment marker or assignment
marker. -/
theorem parseLine_append_selector (tokens : List String) (a : String)
    (ha1 : startsWithPound a = false) (ha2 : a ≠ "=")
    (h : ∀ first, tokens.head? = some first →
      startsWithPound first = false ∧ first ≠ "=") :
    parseLine (tokens ++ [a]) = parseSelector a (tokens ++ [a]) := by
  cases tokens with
  | nil => simp [parseLine, ha1, ha2]
  | cons t ts =>
    obtain ⟨h1, h2⟩ := h t rfl
    have hlast : ((t :: ts) ++ [a]).getLast? = some a := List.getLast?_concat _
    simp only [List.cons_append] at hlast
    simp [parseLine, h1, h2, hlast]

/-- `parse_add` ignores which token ends the line: only the token count
and the leading tokens matter. -/
theorem parse_add_append (tokens : List String) (a b : String) :
    parse_add (tokens ++ [a]) = parse_add (tokens ++ [b]) := by
  simp [parse_add, List.dropLast_concat]

/-- `parse_subtract` ignores which token ends the line. -/
theorem parse_subtract_append (tokens : List String) (a b : String) :
    parse_subtract (tokens ++ [a]) = parse_subtract (tokens ++ [b]) := by
  simp [parse_subtract, List.dropLast_concat]

/-- `parse_multiply` ignores which token ends the line. -/
theorem parse_multiply_append (tokens : List String) (a b : String) :
    parse_multiply (tokens ++ [a]) = parse_multiply (tokens ++ [b]) := by
  simp [parse_multiply, List.dropLast_concat]

/-- `parse_divide` ignores which token ends the line. -/
theorem parse_divide_append (tokens : List String) (a b : String) :
    parse_divide (tokens ++ [a]) = parse_divide (tokens ++ [b]) := by
  simp [parse_divide, List.dropLast_concat]

/-- `parse_power` ignores which token ends the line. -/
theorem parse_power_append (tokens : List String) (a b : String) :
    parse_power (tokens ++ [a]) = parse_power (tokens ++ [b]) := by
  simp [parse_power, List.dropLast_concat]

/-- `parse_modulo` ignores which token ends the line. -/
theorem parse_modulo_append (tokens : List String) (a b : String) :
    parse_modulo (tokens ++ [a]) = parse_modulo (tokens ++ [b]) := by
  simp [parse_modulo, List.dropLast_concat]

/-- Two selector tokens that dispatch to the same arithmetic parse
function produce the same parsed line. -/
theorem parseLine_alias (tokens : List String) (a b : String)
    (f : List String → Except EngineError Command)
    (ha1 : startsWithPound a = false) (ha2 : a ≠ "=")
    (hb1 : startsWithPound b = false) (hb2 : b ≠ "=")
    (h : ∀ first, tokens.head? = some first →
      startsWithPound first = false ∧ first ≠ "=")
    (hfa : parseSelector a (tokens ++ [a]) = Except.map some (f (tokens ++ [a])))
    (hfb : parseSelector b (tokens ++ [b]) = Except.map some (f (tokens ++ [b])))
    (hf : f (tokens ++ [a]) = f (tokens ++ [b])) :
    parseLine (tokens ++ [a]) = parseLine (tokens ++ [b]) := by
  rw [parseLine_append_selector tokens a ha1 ha2 h,
      parseLine_append_selector tokens b hb1 hb2 h, hfa, hfb, hf]

/-! ## Claims -/

/-- C1: every arithmetic command prepends the accumulator to its operand
list, drops `Nothing` entries (and resolved values in general come from
the `filter_map`), and sets the accumulator to the strict left-to-right
fold of the resolved numbers under the operator's binary function; a
single literal line from the initial state is the left fold of its
operands (`"1 2 3 +"` yields `Operand 6`), and consecutive lines compose
through the accumulator (`"1 2 +\n3 -"` yields `Operand 0`). -/
theorem arith_fold_semantics (ev : Evaluator) (c : Command) (ops : List Value)
    (op : ℚ → ℚ → ℚ) (q : ℚ) (qs : List ℚ)
    (hc : arithParts c = some (ops, op))
    (hres : resolveOperands ev.vars (ev.answer :: ops) = (q :: qs, none)) :
    evalStep ev c =
      StepOutcome.next
        { ev with answer := Value.Operand (qs.foldl op q),
                  answers := ev.answers ++ [Value.Operand (qs.foldl op q)] } ∧
    run "1 2 3 +" = EvalOutcome.ok (Value.Operand 6) ∧
    run "1 2 +\n3 -" = EvalOutcome.ok (Value.Operand 0) := by
  refine ⟨?_, ?_, ?_⟩
  · cases c with
    | SetVar name => simp [arithParts] at hc
    | Add l =>
      simp only [arithParts, Option.some.injEq, Prod.mk.injEq] at hc
      obtain ⟨rfl, rfl⟩ := hc
      simp [evalStep, arithStep, operate, hres, reduceList]
    | Subtract l =>
      simp only [arithParts, Option.some.injEq, Prod.mk.injEq] at hc
      obtain ⟨rfl, rfl⟩ := hc
      simp [evalStep, arithStep, operate, hres, reduceList]
    | Multiply l =>
      simp only [arithParts, Option.some.injEq, Prod.mk.injEq] at hc
      obtain ⟨rfl, rfl⟩ := hc
      simp [evalStep, arithStep, operate, hres, reduceList]
    | Divide l =>
      simp only [arithParts, Option.some.injEq, Prod.mk.injEq] at hc
      obtain ⟨rfl, rfl⟩ := hc
      simp [evalStep, arithStep, operate, hres, reduceList]
    | Power l =>
      simp only [arithParts, Option.some.injEq, Prod.mk.injEq] at hc
      obtain ⟨rfl, rfl⟩ := hc
      simp [evalStep, arithStep, operate, hres, reduceList]
    | Modulo l =>
      simp only [arithParts, Option.some.injEq, Prod.mk.injEq] at hc
      obtain ⟨rfl, rfl⟩ := hc
      simp [evalStep, arithStep, operate, hres, reduceList]
  · have hp : parse "1 2 3 +" =
        Except.ok [Command.Add [Value.Operand 1, Value.Operand 2, Value.Operand 3]] := by
      decide
    simp only [run, hp]
    norm_num [evaluate, evalStep, arithStep, operate, resolveOperands, reduceList,
      Evaluator.new, add]
  · have hp : parse "1 2 +\n3 -" =
        Except.ok [Command.Add [Value.Operand 1, Value.Operand 2],
                   Command.Subtract [Value.Operand 3]] := by
      decide
    simp only [run, hp]
    norm_num [evaluate, evalStep, arithStep, operate, resolveOperands, reduceList,
      Evaluator.new, add, subtract]

/-- Witness for C1 at `1 2 add` from the initial state. -/
theorem arith_fold_semantics_witness :
    evalStep Evaluator.new (Command.Add [Value.Operand 1, Value.Operand 2]) =
      StepOutcome.next
        { Evaluator.new with
            answer := Value.Operand (List.foldl add 1 [2]),
            answers := Evaluator.new.answers ++ [Value.Operand (List.foldl add 1 [2])] } ∧
    run "1 2 3 +" = EvalOutcome.ok (Value.Operand 6) ∧
    run "1 2 +\n3 -" = EvalOutcome.ok (Value.Operand 0) :=
  arith_fold_semantics Evaluator.new (Command.Add [Value.Operand 1, Value.Operand 2])
    [Value.Operand 1, Value.Operand 2] add 1 [2] rfl (by decide)

/-- C2 counterexample: the parser's `MissingOperands` guard does NOT keep
the fold non-empty.  `"y +"` parses successfully (one operand token), yet
evaluating it from the initial state filters out both the `Nothing`
accumulator and the unresolvable variable, reaching the empty-fold
`unwrap` (a panic, not a defined `EngineError`). -/
theorem parsed_script_reaches_empty_fold :
    parse "y +" = Except.ok [Command.Add [Value.Variable "y"]] ∧
    evaluate Evaluator.new [Command.Add [Value.Variable "y"]] = EvalOutcome.fault ∧
    run "y +" = EvalOutcome.fault :=
  ⟨by decide, by decide, by decide⟩

/-- C2 (amended): evaluation never reaches the empty-fold `unwrap` for
command sequences in which every arithmetic command carries at least one
numeric-literal operand; with only unresolvable-variable operands and a
`Nothing` accumulator the `unwrap` panic is reachable (see the
counterexample). -/
theorem evaluate_no_fault_with_literal_operand (cmds : List Command) (ev : Evaluator)
    (h : ∀ c ∈ cmds, commandHasLiteral c) :
    evaluate ev cmds ≠ EvalOutcome.fault := by
  induction cmds generalizing ev with
  | nil => simp [evaluate]
  | cons c rest ih =>
    have hc := h c (List.mem_cons_self c rest)
    have hrest : ∀ c' ∈ rest, commandHasLiteral c' :=
      fun c' hc' => h c' (List.mem_cons_of_mem c hc')
    have hstep := evalStep_ne_fault ev c hc
    cases hs : evalStep ev c with
    | next ev' => simpa [evaluate, hs] using ih ev' hrest
    | err e => simp [evaluate, hs]
    | fault => exact absurd hs hstep

/-- Witness for the amended C2. -/
theorem evaluate_no_fault_with_literal_operand_witness :
    evaluate Evaluator.new [Command.Add [Value.Operand 1, Value.Variable "y"]] ≠
      EvalOutcome.fault :=
  evaluate_no_fault_with_literal_operand
    [Command.Add [Value.Operand 1, Value.Variable "y"]] Evaluator.new
    (by
      intro c hc
      simp only [List.mem_singleton] at hc
      subst hc
      exact ⟨1, by simp⟩)

/-- C3: an arithmetic command whose working list leaves at least one
variable unresolved (while resolving at least one number, so the fold is
non-empty) fails with `MissingVariable` naming an absent variable — the
step produces no successor state, so the accumulator is untouched; and
`run "5 y +"` returns `MissingVariable "y"`. -/
theorem missing_variable_aborts_command (ev : Evaluator) (c : Command)
    (ops : List Value) (op : ℚ → ℚ → ℚ) (q : ℚ) (qs : List ℚ) (name : String)
    (hc : arithParts c = some (ops, op))
    (hres : resolveOperands ev.vars (ev.answer :: ops) = (q :: qs, some name)) :
    evalStep ev c = StepOutcome.err (EngineError.MissingVariable name) ∧
    lookupVar ev.vars name = none ∧
    run "5 y +" = EvalOutcome.err (EngineError.MissingVariable "y") := by
  refine ⟨?_, resolve_missing_unbound ev.vars (ev.answer :: ops) (q :: qs) name hres,
    by decide⟩
  cases c with
  | SetVar n => simp [arithParts] at hc
  | Add l =>
    simp only [arithParts, Option.some.injEq, Prod.mk.injEq] at hc
    obtain ⟨rfl, rfl⟩ := hc
    simp [evalStep, arithStep, operate, hres, reduceList]
  | Subtract l =>
    simp only [arithParts, Option.some.injEq, Prod.mk.injEq] at hc
    obtain ⟨rfl, rfl⟩ := hc
    simp [evalStep, arithStep, operate, hres, reduceList]
  | Multiply l =>
    simp only [arithParts, Option.some.injEq, Prod.mk.injEq] at hc
    obtain ⟨rfl, rfl⟩ := hc
    simp [evalStep, arithStep, operate, hres, reduceList]
  | Divide l =>
    simp only [arithParts, Option.some.injEq, Prod.mk.injEq] at hc
    obtain ⟨rfl, rfl⟩ := hc
    simp [evalStep, arithStep, operate, hres, reduceList]
  | Power l =>
    simp only [arithParts, Option.some.injEq, Prod.mk.injEq] at hc
    obtain ⟨rfl, rfl⟩ := hc
    simp [evalStep, arithStep, operate, hres, reduceList]
  | Modulo l =>
    simp only [arithParts, Option.some.injEq, Prod.mk.injEq] at hc
    obtain ⟨rfl, rfl⟩ := hc
    simp [evalStep, arithStep, operate, hres, reduceList]

/-- Witness for C3 at `5 y +` with an empty variable table. -/
theorem missing_variable_aborts_command_witness :
    evalStep Evaluator.new (Command.Add [Value.Operand 5, Value.Variable "y"]) =
      StepOutcome.err (EngineError.MissingVariable "y") ∧
    lookupVar Evaluator.new.vars "y" = none ∧
    run "5 y +" = EvalOutcome.err (EngineError.MissingVariable "y") :=
  missing_variable_aborts_command Evaluator.new
    (Command.Add [Value.Operand 5, Value.Variable "y"])
    [Value.Operand 5, Value.Variable "y"] add 5 [] "y" rfl (by decide)

/-- C4: any successful evaluation step leaves a non-`Variable`
accumulator (`Nothing` or `Operand`), and consequently evaluation from
`Evaluator.new` never returns the
`EvaluatorAnswerShouldNotBeValueVariable` internal-invariant error. -/
theorem accumulator_never_variable (cmds : List Command) (ev ev' : Evaluator)
    (c : Command) (hstep : evalStep ev c = StepOutcome.next ev') :
    ev'.answer.isVar = false ∧
    evaluate Evaluator.new cmds ≠
      EvalOutcome.err EngineError.EvaluatorAnswerShouldNotBeValueVariable :=
  ⟨evalStep_not_var ev ev' c hstep, evaluate_no_invariant_error cmds Evaluator.new rfl⟩

/-- Witness for C4 at a concrete step and command list. -/
theorem accumulator_never_variable_witness :
    (Evaluator.mk [] [Value.Operand 3] (Value.Operand 3)).answer.isVar = false ∧
    evaluate Evaluator.new [Command.Add [Value.Operand 3]] ≠
      EvalOutcome.err EngineError.EvaluatorAnswerShouldNotBeValueVariable :=
  accumulator_never_variable [Command.Add [Value.Operand 3]] Evaluator.new
    (Evaluator.mk [] [Value.Operand 3] (Value.Operand 3))
    (Command.Add [Value.Operand 3]) (by decide)

/-- C5: `SetVar(name)` on a `Nothing` accumulator fails with
`NoValuesInQueue` (producing no successor state, so the table is
untouched); on an `Operand n` accumulator it stores `n` under `name` —
the new binding shadows any prior one, other names read unchanged — and
resets the accumulator to `Nothing`. -/
theorem set_var_semantics (ev : Evaluator) (name : String) :
    (ev.answer = Value.Nothing →
      evalStep ev (Command.SetVar name) = StepOutcome.err EngineError.NoValuesInQueue) ∧
    (∀ n : ℚ, ev.answer = Value.Operand n →
      evalStep ev (Command.SetVar name) =
        StepOutcome.next
          { vars := (name, n) :: ev.vars
            answers := ev.answers ++ [Value.Nothing]
            answer := Value.Nothing } ∧
      lookupVar ((name, n) :: ev.vars) name = some n ∧
      ∀ m, m ≠ name → lookupVar ((name, n) :: ev.vars) m = lookupVar ev.vars m) := by
  constructor
  · intro h
    simp [evalStep, h]
  · intro n h
    refine ⟨by simp [evalStep, h], by simp [lookupVar], ?_⟩
    intro m hm
    simp [lookupVar, hm.symm]

/-- Witness for C5: capture on `Operand 5`, failure from the fresh
state. -/
theorem set_var_semantics_witness :
    evalStep (Evaluator.mk [] [] (Value.Operand 5)) (Command.SetVar "x") =
      StepOutcome.next
        { vars := [("x", 5)]
          answers := [Value.Nothing]
          answer := Value.Nothing } ∧
    evalStep Evaluator.new (Command.SetVar "x") =
      StepOutcome.err EngineError.NoValuesInQueue :=
  ⟨((set_var_semantics (Evaluator.mk [] [] (Value.Operand 5)) "x").2 5 rfl).1,
   (set_var_semantics Evaluator.new "x").1 rfl⟩

/-- C6: when a command sequence ending in `SetVar` evaluates successfully,
the returned value is `Nothing`, as an `ok` result, which is a different
constructor from every `err e`. -/
theorem trailing_set_var_yields_nothing (cmds : List Command) (name : String)
    (ev : Evaluator) (v : Value)
    (h : evaluate ev (cmds ++ [Command.SetVar name]) = EvalOutcome.ok v) :
    v = Value.Nothing ∧ ∀ e : EngineError, EvalOutcome.ok v ≠ EvalOutcome.err e := by
  refine ⟨?_, fun e he => EvalOutcome.noConfusion he⟩
  induction cmds generalizing ev with
  | nil =>
    rw [List.nil_append] at h
    cases hs : evalStep ev (Command.SetVar name) with
    | next ev' =>
      have hans := evalStep_setvar_next ev ev' name hs
      simp only [evaluate, hs] at h
      rw [← EvalOutcome.ok.inj h]
      exact hans
    | err e =>
      simp only [evaluate, hs] at h
      exact EvalOutcome.noConfusion h
    | fault =>
      simp only [evaluate, hs] at h
      exact EvalOutcome.noConfusion h
  | cons c rest ih =>
    rw [List.cons_append] at h
    cases hs : evalStep ev c with
    | next ev' =>
      simp only [evaluate, hs] at h
      exact ih ev' h
    | err e =>
      simp only [evaluate, hs] at h
      exact EvalOutcome.noConfusion h
    | fault =>
      simp only [evaluate, hs] at h
      exact EvalOutcome.noConfusion h

/-- Witness for C6 at `1 + ; = x`. -/
theorem trailing_set_var_yields_nothing_witness :
    Value.Nothing = Value.Nothing ∧
    ∀ e : EngineError, EvalOutcome.ok Value.Nothing ≠ EvalOutcome.err e :=
  trailing_set_var_yields_nothing [Command.Add [Value.Operand 1]]
    "x" Evaluator.new Value.Nothing (by decide)

/-- C7: a line whose first token is `=` parses to `MissingVariableName`
with zero follow-on tokens, `TooManyVariableNames` with two or more, and
`SetVar name` with exactly one. -/
theorem assignment_line_arity (rest : List String) (name : String) :
    (rest = [] → parseLine ("=" :: rest) = Except.error EngineError.MissingVariableName) ∧
    (2 ≤ rest.length →
      parseLine ("=" :: rest) = Except.error EngineError.TooManyVariableNames) ∧
    (rest = [name] → parseLine ("=" :: rest) = Except.ok (some (Command.SetVar name))) := by
  refine ⟨?_, ?_, ?_⟩
  · rintro rfl
    decide
  · intro h2
    have hroute : parseLine ("=" :: rest) =
        Except.map some (parse_set_var ("=" :: rest)) := by
      simp +decide [parseLine]
    rw [hroute]
    unfold parse_set_var
    rw [if_neg (by simp only [List.length_cons]; omega),
        if_pos (by simp only [List.length_cons]; omega)]
    rfl
  · rintro rfl
    have hroute : parseLine ["=", name] =
        Except.map some (parse_set_var ["=", name]) := by
      simp +decide [parseLine]
    rw [hroute]
    unfold parse_set_var
    rw [if_neg (by simp only [List.length_cons, List.length_nil]; omega),
        if_neg (by simp only [List.length_cons, List.length_nil]; omega)]
    rfl

/-- Witness for C7: all three arities at concrete lines. -/
theorem assignment_line_arity_witness :
    parseLine ["="] = Except.error EngineError.MissingVariableName ∧
    parseLine ["=", "a", "b"] = Except.error EngineError.TooManyVariableNames ∧
    parseLine ["=", "y"] = Except.ok (some (Command.SetVar "y")) :=
  ⟨(assignment_line_arity [] "y").1 rfl,
   (assignment_line_arity ["a", "b"] "y").2.1 (by decide),
   (assignment_line_arity ["y"] "y").2.2 rfl⟩

/-- C8: a non-empty, non-comment, non-assignment line whose last token is
none of the selector aliases parses to `UnknownCommand` carrying that
token; the error aborts `parse`, so no partial command list is returned —
concretely `"1 2 foo"` and `"1 2 foo\n3 4 +"` (a later, valid line is
never reached) both give `UnknownCommand "foo"`. -/
theorem unknown_selector_fails_fast (tokens : List String) (first last : String)
    (h1 : tokens.head? = some first)
    (h2 : startsWithPound first = false)
    (h3 : first ≠ "=")
    (h4 : tokens.getLast? = some last)
    (h5 : isSelectorToken last = false) :
    parseLine tokens = Except.error (EngineError.UnknownCommand last) ∧
    parse "1 2 foo" = Except.error (EngineError.UnknownCommand "foo") ∧
    parse "1 2 foo\n3 4 +" = Except.error (EngineError.UnknownCommand "foo") := by
  refine ⟨?_, by decide, by decide⟩
  simp [parseLine, h1, h2, h3, h4, parseSelector_unknown last tokens h5]

/-- Witness for C8 at the tokens of `1 2 foo`. -/
theorem unknown_selector_fails_fast_witness :
    parseLine ["1", "2", "foo"] = Except.error (EngineError.UnknownCommand "foo") ∧
    parse "1 2 foo" = Except.error (EngineError.UnknownCommand "foo") ∧
    parse "1 2 foo\n3 4 +" = Except.error (EngineError.UnknownCommand "foo") :=
  unknown_selector_fails_fast ["1", "2", "foo"] "1" "foo" rfl rfl (by decide) rfl rfl

/-- C9: on any operand token list (whose first token, if any, is neither
a comment marker nor the assignment marker), all aliases within one
operator family parse the line identically — hence to the same `Command`,
which therefore evaluates to the same result. -/
theorem operator_alias_equivalence (tokens : List String)
    (h : ∀ first, tokens.head? = some first →
      startsWithPound first = false ∧ first ≠ "=") :
    (∀ a ∈ (["+", "plus", "add"] : List String),
      parseLine (tokens ++ [a]) = parseLine (tokens ++ ["+"])) ∧
    (∀ a ∈ (["-", "minus", "subtract"] : List String),
      parseLine (tokens ++ [a]) = parseLine (tokens ++ ["-"])) ∧
    (∀ a ∈ (["x", "*", "times", "multiply"] : List String),
      parseLine (tokens ++ [a]) = parseLine (tokens ++ ["x"])) ∧
    (∀ a ∈ (["/", "div", "divide"] : List String),
      parseLine (tokens ++ [a]) = parseLine (tokens ++ ["/"])) ∧
    (∀ a ∈ (["**", "^", "power"] : List String),
      parseLine (tokens ++ [a]) = parseLine (tokens ++ ["**"])) ∧
    (∀ a ∈ (["%", "mod", "modulus", "modulo"] : List String),
      parseLine (tokens ++ [a]) = parseLine (tokens ++ ["%"])) := by
  refine ⟨?_, ?_, ?_, ?_, ?_, ?_⟩
  · intro a ha
    simp only [List.mem_cons, List.not_mem_nil, or_false] at ha
    rcases ha with rfl | rfl | rfl <;>
      exact parseLine_alias tokens _ "+" parse_add rfl (by decide) rfl (by decide) h
        rfl rfl (parse_add_append tokens _ _)
  · intro a ha
    simp only [List.mem_cons, List.not_mem_nil, or_false] at ha
    rcases ha with rfl | rfl | rfl <;>
      exact parseLine_alias tokens _ "-" parse_subtract rfl (by decide) rfl (by decide) h
        rfl rfl (parse_subtract_append tokens _ _)
  · intro a ha
    simp only [List.mem_cons, List.not_mem_nil, or_false] at ha
    rcases ha with rfl | rfl | rfl | rfl <;>
      exact parseLine_alias tokens _ "x" parse_multiply rfl (by decide) rfl (by decide) h
        rfl rfl (parse_multiply_append tokens _ _)
  · intro a ha
    simp only [List.mem_cons, List.not_mem_nil, or_false] at ha
    rcases ha with rfl | rfl | rfl <;>
      exact parseLine_alias tokens _ "/" parse_divide rfl (by decide) rfl (by decide) h
        rfl rfl (parse_divide_append tokens _ _)
  · intro a ha
    simp only [List.mem_cons, List.not_mem_nil, or_false] at ha
    rcases ha with rfl | rfl | rfl <;>
      exact parseLine_alias tokens _ "**" parse_power rfl (by decide) rfl (by decide) h
        rfl rfl (parse_power_append tokens _ _)
  · intro a ha
    simp only [List.mem_cons, List.not_mem_nil, or_false] at ha
    rcases ha with rfl | rfl | rfl | rfl <;>
      exact parseLine_alias tokens _ "%" parse_modulo rfl (by decide) rfl (by decide) h
        rfl rfl (parse_modulo_append tokens _ _)

/-- Witness for C9: one alias of each family against its canonical
spelling, on the operand list `["1"]`. -/
theorem operator_alias_equivalence_witness :
    parseLine ["1", "plus"] = parseLine ["1", "+"] ∧
    parseLine ["1", "minus"] = parseLine ["1", "-"] ∧
    parseLine ["1", "times"] = parseLine ["1", "x"] ∧
    parseLine ["1", "div"] = parseLine ["1", "/"] ∧
    parseLine ["1", "power"] = parseLine ["1", "**"] ∧
    parseLine ["1", "mod"] = parseLine ["1", "%"] := by
  have h : ∀ first, (["1"] : List String).head? = some first →
      startsWithPound first = false ∧ first ≠ "=" := by
    intro first hf
    simp only [List.head?_cons, Option.some.injEq] at hf
    subst hf
    exact ⟨rfl, by decide⟩
  obtain ⟨c1, c2, c3, c4, c5, c6⟩ := operator_alias_equivalence ["1"] h
  exact ⟨c1 "plus" (by decide), c2 "minus" (by decide), c3 "times" (by decide),
         c4 "div" (by decide), c5 "power" (by decide), c6 "mod" (by decide)⟩

/-- C10: a script all of whose lines are blank or comments (including the
empty script) parses to the empty command sequence, and evaluating the
empty sequence from a fresh evaluator gives `ok Nothing` with an empty
variable table. -/
theorem blank_comment_script_empty (s : String)
    (h : ∀ line ∈ rustLines s, blankOrComment line = true) :
    parse s = Except.ok [] ∧
    evaluate Evaluator.new [] = EvalOutcome.ok Value.Nothing ∧
    Evaluator.new.vars = [] ∧
    parse "" = Except.ok [] :=
  ⟨parseGo_skips (rustLines s) [] h, rfl, rfl, by decide⟩

/-- Witness for C10 at a script of one blank line, one comment line and
one whitespace line. -/
theorem blank_comment_script_empty_witness :
    parse "\n# note\n   \n" = Except.ok [] ∧
    evaluate Evaluator.new [] = EvalOutcome.ok Value.Nothing ∧
    Evaluator.new.vars = [] ∧
    parse "" = Except.ok [] :=
  blank_comment_script_empty "\n# note\n   \n" (by decide)

end Qqc

